import Mathlib

/-!
Shallow embedding of `resolve_sets.py`: the `PlateSet` grid data model and
the `solve` deconvolution algorithm, together with proofs checking the
natural-language specification against this code.

Modelling conventions:
* Python lists become Lean `List`s; the mutable grid becomes explicit state
  passing (`setCell` returns the new grid).
* Python `dict`s (which iterate in insertion order) become association
  lists; Python `set`s become duplicate-free `List`s recording an iteration
  order (`setAdd` mirrors `set.add`).
* Fallible operations (`raise`) return `Except PyErr`; `PyErr` distinguishes
  `TypeError`, `ValueError` (the "range error" of the spec) and `KeyError`.
* Machine integers are `Int`/`Nat` (Python integers are unbounded, so no
  wrap-around modelling is needed).
-/

namespace ResolveSets

/-- Python exception classes that the embedded code can raise. -/
inductive PyErr where
  | typeError
  | valueError
  | keyError
deriving DecidableEq

/-- Module constant `FILL = 5`: length of the item tokens. -/
def FILL : Nat := 5

/-- The sentinel cell value `self._null = "x" * FILL`. -/
def nullStr : String := String.mk (List.replicate FILL 'x')

/-- The `PlateSet` object: declared dimensions plus the row-major grid
(`self.grid`, a list of row lists). -/
structure PlateSet where
  num_rows : Nat
  num_cols : Nat
  grid : List (List String)
deriving DecidableEq

/-- Constructor body for validated integer dimensions: an all-sentinel
`rows × cols` grid (`self.grid = [[self._null ...] ...]`). -/
def PlateSet.mk0 (rows cols : Nat) : PlateSet :=
  ⟨rows, cols, List.replicate rows (List.replicate cols nullStr)⟩

/-- Well-formedness invariant maintained by the Python class: the stored
grid really has `num_rows` rows of `num_cols` cells each. -/
def PlateSet.WF (p : PlateSet) : Prop :=
  p.grid.length = p.num_rows ∧ ∀ row ∈ p.grid, row.length = p.num_cols

instance (p : PlateSet) : Decidable p.WF := by
  unfold PlateSet.WF; infer_instance

/-- Total read of `self.grid[row][col]` (used after a bounds check has
succeeded; out-of-shape reads default to the sentinel). -/
def getCell (p : PlateSet) (r c : Nat) : String :=
  (p.grid.getD r []).getD c nullStr

/-- Total write `self.grid[row][col] = value` (used after a bounds check
has succeeded; out-of-shape writes are no-ops, matching `List.set`). -/
def setCell (p : PlateSet) (r c : Nat) (v : String) : PlateSet :=
  { p with grid := p.grid.set r ((p.grid.getD r []).set c v) }

/-- The bounds check `row in range(self.num_rows) and col in range(self.num_cols)`
shared by `value_of`, `insert` and `remove`. -/
def PlateSet.inRange (p : PlateSet) (r c : Int) : Prop :=
  (0 ≤ r ∧ r < (p.num_rows : Int)) ∧ (0 ≤ c ∧ c < (p.num_cols : Int))

instance (p : PlateSet) (r c : Int) : Decidable (p.inRange r c) := by
  unfold PlateSet.inRange; infer_instance

/-- `PlateSet.value_of`: get the value of a grid position, raising
`ValueError` outside the grid. -/
def PlateSet.value_of (p : PlateSet) (r c : Int) : Except PyErr String :=
  if p.inRange r c then .ok (getCell p r.toNat c.toNat)
  else .error .valueError

/-- `PlateSet.insert`: set the value of a grid position, raising
`ValueError` outside the grid. -/
def PlateSet.insert (p : PlateSet) (v : String) (r c : Int) : Except PyErr PlateSet :=
  if p.inRange r c then .ok (setCell p r.toNat c.toNat v)
  else .error .valueError

/-- `PlateSet.remove`: reset a grid position to the default value, raising
`ValueError` outside the grid. -/
def PlateSet.remove (p : PlateSet) (r c : Int) : Except PyErr PlateSet :=
  if p.inRange r c then .ok (setCell p r.toNat c.toNat nullStr)
  else .error .valueError

/-- Row-major list of all (row, col) index pairs, as produced by the nested
`for row_idx in range(...): for col_idx in range(...)` loops. -/
def gridPairs (rows cols : Nat) : List (Nat × Nat) :=
  (List.range rows).flatMap (fun r => (List.range cols).map (fun c => (r, c)))

/-- `PlateSet.count_defaults`: the number of cells still holding the
default value. -/
def PlateSet.count_defaults (p : PlateSet) : Nat :=
  ((gridPairs p.num_rows p.num_cols).filter
    (fun rc => decide (getCell p rc.1 rc.2 = nullStr))).length

/-- `set.add`: append an element to a Python-set iteration sequence unless
it is already present. -/
def setAdd (s : List String) (v : String) : List String :=
  if v ∈ s then s else s ++ [v]

/-- `PlateSet.get_rows`: the list of rows (a shallow copy of `self.grid`). -/
def PlateSet.get_rows (p : PlateSet) : List (List String) := p.grid

/-- `PlateSet.get_cols`: the list of columns, assembled cell by cell via
`value_of` (always in range). -/
def PlateSet.get_cols (p : PlateSet) : List (List String) :=
  (List.range p.num_cols).map (fun j => (List.range p.num_rows).map (fun i => getCell p i j))

/-- `PlateSet.hpools`: dictionary mapping each row index to the set of
values occurring in that row. -/
def PlateSet.hpools (p : PlateSet) : List (Nat × List String) :=
  (List.range p.num_rows).map (fun i => (i, (p.grid.getD i []).foldl setAdd []))

/-- `PlateSet.vpools`: dictionary mapping each column index to the set of
values occurring in that column. -/
def PlateSet.vpools (p : PlateSet) : List (Nat × List String) :=
  (List.range p.num_cols).map
    (fun j => (j, ((List.range p.num_rows).map (fun i => getCell p i j)).foldl setAdd []))

/-- Association-list lookup for the pool dictionaries. -/
def poolGet : List (Nat × List String) → Nat → List String
  | [], _ => []
  | (k, s) :: rest, i => if k = i then s else poolGet rest i

/-- `PlateSet.fill_by_other` guard and copy loop body (per-cell reads of the
source grid and bounds-checked inserts into the target). -/
def copyLoop (b : PlateSet) : List (Nat × Nat) → PlateSet → Except PyErr PlateSet
  | [], a => .ok a
  | (r, c) :: rest, a => do
      let v ← b.value_of r c
      let a' ← a.insert v r c
      copyLoop b rest a'

/-- `PlateSet.fill_by_other`: fills all wells with the well value of another
grid. Note the guard is a faithful transcription of the source line
`if self.num_rows != other.num_rows and self.num_cols != other.num_rows`. -/
def fill_by_other (a b : PlateSet) : Except PyErr PlateSet :=
  if a.num_rows ≠ b.num_rows ∧ a.num_cols ≠ b.num_rows then .error .valueError
  else copyLoop b (gridPairs b.num_rows b.num_cols) a

/-- Cell-comparison loop of `is_equal_to` (compares `self.value_of` with
`other.value_of`, which may itself raise). -/
def eqCells (a b : PlateSet) : List (Nat × Nat) → Except PyErr Bool
  | [] => .ok true
  | (r, c) :: rest => do
      let va ← a.value_of r c
      let vb ← b.value_of r c
      if va = vb then eqCells a b rest else .ok false

/-- `PlateSet.is_equal_to`: returns True if the current grid equals another
grid. The guard transcribes the source line
`if not self.num_rows == other.num_rows and self.num_cols == other.num_cols`
with Python's precedence (`(not A) and B`). -/
def is_equal_to (a b : PlateSet) : Except PyErr Bool :=
  if (¬ a.num_rows = b.num_rows) ∧ a.num_cols = b.num_cols then .ok false
  else eqCells a b (gridPairs a.num_rows a.num_cols)

/-- The dictionary literal `offset_to_num` of `_indices_to_well`, as a
partial lookup (a missing key raises `KeyError`). -/
def offset_to_num (rc : Nat × Nat) : Option Nat :=
  if rc = (0, 0) then some 0
  else if rc = (0, 1) then some 1
  else if rc = (1, 0) then some 2
  else if rc = (1, 1) then some 3
  else none

/-- Row letters `"ABCDEFGH"` used for the within-plate well label. -/
def rowLetters : List Char := ['A', 'B', 'C', 'D', 'E', 'F', 'G', 'H']

/-- The well label `"ABCDEFGH"[row % 8] + str(col % 12 + 1)`. -/
def wellLabel (row col : Nat) : String :=
  String.mk [rowLetters.getD (row % 8) 'A'] ++ toString (col % 12 + 1)

/-- `PlateSet._indices_to_well`: translates a (row, col) pair into a plate
number plus well ID string. The guard transcribes `if row > 16 or col > 24`;
a tile offset outside the dictionary raises `KeyError`. -/
def indices_to_well (row col : Nat) (start_at : Int) : Except PyErr String :=
  if 16 < row ∨ 24 < col then .error .valueError
  else
    match offset_to_num (row / 8, col / 12) with
    | none => .error .keyError
    | some k => .ok ("Plate " ++ toString (start_at + (k : Int)) ++ " " ++ wellLabel row col)

/-- Append a coordinate to an item's candidate list in the `solved_items`
dictionary (`solved_items[item].append(...)`, creating the entry if absent;
new entries go to the end, matching dict insertion order). -/
def dictAppend (d : List (String × List (Nat × Nat))) (k : String) (v : Nat × Nat) :
    List (String × List (Nat × Nat)) :=
  match d with
  | [] => [(k, [v])]
  | (k', vs) :: rest =>
      if k' = k then (k', vs ++ [v]) :: rest else (k', vs) :: dictAppend rest k v

/-- Lookup in the `solved_items` dictionary. -/
def dictGet : List (String × List (Nat × Nat)) → String → List (Nat × Nat)
  | [], _ => []
  | (k, vs) :: rest, x => if k = x then vs else dictGet rest x

/-- Candidate-building phase of `solve`: for every h-pool, every item in it
and every v-pool containing the item, record the (row, col) pair. -/
def buildCandidates (hp vp : List (Nat × List String)) :
    List (String × List (Nat × Nat)) :=
  hp.foldl
    (fun d h =>
      h.2.foldl
        (fun d item =>
          vp.foldl
            (fun d v => if item ∈ v.2 then dictAppend d item (h.1, v.1) else d)
            d)
        d)
    []

/-- Placement phase of `solve`: insert every item whose candidate list has
exactly one entry at that coordinate (a bounds-checked insert that can
raise). -/
def placeLoop : List (String × List (Nat × Nat)) → PlateSet → Except PyErr PlateSet
  | [], g => .ok g
  | (item, cands) :: rest, g =>
      match cands with
      | [rc] =>
          match g.insert item (rc.1 : Int) (rc.2 : Int) with
          | .ok g' => placeLoop rest g'
          | .error e => .error e
      | _ => placeLoop rest g

/-- `solve(hpools, vpools, num_rows, num_cols)`: builds the candidate map
and places the uniquely resolvable items into a fresh `PlateSet`. -/
def solve (hp vp : List (Nat × List String)) (rows cols : Nat) : Except PyErr PlateSet :=
  placeLoop (buildCandidates hp vp) (PlateSet.mk0 rows cols)

/-- Claim-side candidate list (spec §3 "Candidate-position map"): all pairs
`(r, c)` such that the item is a member of `hpools[r]` and of `vpools[c]`,
enumerated row-major. -/
def candList (hp vp : List (Nat × List String)) (x : String) : List (Nat × Nat) :=
  hp.flatMap (fun h =>
    if x ∈ h.2 then (vp.filter (fun v => decide (x ∈ v.2))).map (fun v => (h.1, v.1))
    else [])

/-- Dynamically typed constructor arguments of `PlateSet.__init__`:
Python ints, floats (modelled as rationals) and non-numeric values
(represented by strings). -/
inductive PyVal where
  | vint : Int → PyVal
  | vfloat : ℚ → PyVal
  | vstr : String → PyVal
deriving DecidableEq

/-- `isinstance(v, int)`. -/
def PyVal.isInt : PyVal → Bool
  | .vint _ => true
  | _ => false

/-- `isinstance(v, float)`. -/
def PyVal.isFloat : PyVal → Bool
  | .vfloat _ => true
  | _ => false

/-- The spec's "integer or integer-valued real" acceptance predicate
(`rows == int(rows)` holds for a rational exactly when its denominator
is 1). -/
def validDim : PyVal → Bool
  | .vint _ => true
  | .vfloat q => q.den = 1
  | .vstr _ => false

/-- `PlateSet.__init__` dimension validation: the explicit `isinstance`
checks of the source, followed by the implicit `TypeError` that the grid
comprehension can raise when a dimension survived the checks without being
an int (only the both-float branch coerces to int). Evaluation order
matters: the outer `range(self.num_rows)` is constructed first, so a
non-int `rows` always raises, while a non-int `cols` raises only when the
outer range is non-empty (`rows ≥ 1`) — with `rows ≤ 0` the inner
`range(self.num_cols)` is never evaluated and the object is constructed
with the non-int `cols` stored as is. (`num_wells = cols * rows` never
raises here: after the checks at least one factor is an int, and
int·float and int·str both succeed in Python.) On success the stored
`(num_rows, num_cols)` pair is returned. -/
def initPlate (rows cols : PyVal) : Except PyErr (PyVal × PyVal) :=
  match rows, cols with
  | .vfloat qr, .vfloat qc =>
      if qr.den = 1 ∧ qc.den = 1 then .ok (.vint qr.num, .vint qc.num)
      else .error .typeError
  | r, c =>
      if ¬ (r.isInt ∨ c.isInt) then .error .typeError
      else
        match r with
        | .vint ri =>
            if ri ≤ 0 then .ok (r, c)
            else
              match c with
              | .vint _ => .ok (r, c)
              | _ => .error .typeError
        | _ => .error .typeError

/-- Modelled from the spec: Python's stdlib `random` module global PRNG
(external to this repository; the spec only requires "deterministic when a
seed is supplied"). It is a deterministic state machine: `random.seed`
resets the state, and each `random.choice` consumes one step. -/
structure Rng where
  state : Nat
deriving DecidableEq

/-- Modelled from the spec: `random.seed(s)` deterministically resets the
generator state from the seed. -/
def rngSeed (s : Int) : Rng := ⟨s.natAbs⟩

/-- Modelled from the spec: `random.choice(l)` picks an element of `l`
determined by the generator state and advances the state. -/
def rngChoice (g : Rng) (l : List String) : String × Rng :=
  (l.getD (g.state % l.length) nullStr, ⟨g.state + 1⟩)

/-- Python truthiness of an integer seed argument (`if seed:`); the default
`seed=False` equals 0 and is falsy. -/
def truthy (s : Int) : Bool := s ≠ 0

/-- The 26-letter uppercase alphabet of `fill_randomly`. -/
def letters : List Char :=
  ['A', 'B', 'C', 'D', 'E', 'F', 'G', 'H', 'I', 'J', 'K', 'L', 'M',
   'N', 'O', 'P', 'Q', 'R', 'S', 'T', 'U', 'V', 'W', 'X', 'Y', 'Z']

/-- `itertools.combinations(s, k)`: all length-`k` subsequences of `s`,
in the order itertools emits them. -/
def combinations : Nat → List Char → List (List Char)
  | 0, _ => [[]]
  | _ + 1, [] => []
  | k + 1, c :: cs => (combinations k cs).map (fun t => c :: t) ++ combinations (k + 1) cs

/-- `elements = list(itertools.combinations("ABC...XYZ", FILL))`, with each
tuple already joined to a 5-character string (`"".join(...)`). -/
def elements : List String := (combinations FILL letters).map (fun l => String.mk l)

/-- Body of the `fill_randomly` double loop: choose a random element and
insert it (the bounds check always succeeds for loop indices). -/
def fillLoop (p : PlateSet) : List (Nat × Nat) → Rng → PlateSet × Rng
  | [], g => (p, g)
  | (r, c) :: rest, g =>
      let vg := rngChoice g elements
      fillLoop (setCell p r c vg.1) rest vg.2

/-- `PlateSet.fill_randomly(seed=False)`: seeds the global generator only
when the seed argument is truthy, then overwrites every cell with a random
element. `none` models the default `seed=False`. -/
def fill_randomly (p : PlateSet) (seed : Option Int) (g : Rng) : PlateSet × Rng :=
  let g0 := match seed with
    | some s => if truthy s then rngSeed s else g
    | none => g
  fillLoop p (gridPairs p.num_rows p.num_cols) g0

/-! Basic lemmas about the grid model. -/

theorem getCell_mk0 (rows cols r c : Nat) : getCell (PlateSet.mk0 rows cols) r c = nullStr := by
  unfold getCell PlateSet.mk0
  simp only [List.getD_eq_getElem?_getD, List.getElem?_replicate]
  by_cases hr : r < rows
  · simp only [if_pos hr, Option.getD_some]
    by_cases hc : c < cols
    · simp [hc]
    · simp [hc]
  · simp [if_neg hr]

theorem WF_mk0 (rows cols : Nat) : (PlateSet.mk0 rows cols).WF := by
  constructor
  · simp [PlateSet.mk0]
  · intro row hrow
    simp only [PlateSet.mk0] at hrow
    rw [List.eq_of_mem_replicate hrow]
    simp [PlateSet.mk0]

@[simp] theorem setCell_num_rows (p : PlateSet) (r c : Nat) (v : String) :
    (setCell p r c v).num_rows = p.num_rows := rfl

@[simp] theorem setCell_num_cols (p : PlateSet) (r c : Nat) (v : String) :
    (setCell p r c v).num_cols = p.num_cols := rfl

theorem WF_setCell {p : PlateSet} (h : p.WF) (r c : Nat) (v : String) :
    (setCell p r c v).WF := by
  obtain ⟨hlen, hrows⟩ := h
  by_cases hr : r < p.grid.length
  · constructor
    · simp [setCell, hlen]
    · intro row hrow
      rcases List.mem_or_eq_of_mem_set hrow with hmem | heq
      · exact hrows row hmem
      · subst heq
        rw [List.length_set]
        rw [List.getD_eq_getElem?_getD, List.getElem?_eq_getElem hr, Option.getD_some]
        exact hrows _ (List.getElem_mem hr)
  · have : p.grid.set r ((p.grid.getD r []).set c v) = p.grid :=
      List.set_eq_of_length_le (by omega)
    constructor
    · simp [setCell, this, hlen]
    · intro row hrow
      simp only [setCell, this] at hrow
      exact hrows row hrow

theorem getCell_setCell_self {p : PlateSet} (hWF : p.WF) {r c : Nat}
    (hr : r < p.num_rows) (hc : c < p.num_cols) (v : String) :
    getCell (setCell p r c v) r c = v := by
  obtain ⟨hlen, hrows⟩ := hWF
  have hr' : r < p.grid.length := by omega
  have hrowlen : (p.grid[r]?.getD []).length = p.num_cols := by
    rw [List.getElem?_eq_getElem hr', Option.getD_some]
    exact hrows _ (List.getElem_mem hr')
  simp only [getCell, setCell, List.getD_eq_getElem?_getD]
  rw [List.getElem?_set_self hr', Option.getD_some,
    List.getElem?_set_self (by omega), Option.getD_some]

theorem getCell_setCell_ne {p : PlateSet} {r c r' c' : Nat}
    (h : ¬ (r' = r ∧ c' = c)) (v : String) :
    getCell (setCell p r c v) r' c' = getCell p r' c' := by
  simp only [getCell, setCell, List.getD_eq_getElem?_getD]
  by_cases hrr : r' = r
  · subst hrr
    have hcc : c' ≠ c := fun hc => h ⟨rfl, hc⟩
    by_cases hr : r' < p.grid.length
    · rw [List.getElem?_set_self hr, Option.getD_some,
        List.getElem?_set_ne (Ne.symm hcc), List.getElem?_eq_getElem hr, Option.getD_some]
    · rw [List.set_eq_of_length_le (by omega)]
  · rw [List.getElem?_set_ne (Ne.symm hrr)]

/-- Two well-formed grids with equal dimensions and equal cells are equal. -/
theorem plateSet_ext {a b : PlateSet} (ha : a.WF) (hb : b.WF)
    (hr : a.num_rows = b.num_rows) (hc : a.num_cols = b.num_cols)
    (h : ∀ r < a.num_rows, ∀ c < a.num_cols, getCell a r c = getCell b r c) : a = b := by
  obtain ⟨halen, harows⟩ := ha
  obtain ⟨hblen, hbrows⟩ := hb
  cases a with
  | mk ar ac ag =>
    cases b with
    | mk br bc bg =>
      simp only at *
      subst hr hc
      congr 1
      apply List.ext_getElem (by omega)
      intro i h1 h2
      apply List.ext_getElem
      · rw [harows _ (List.getElem_mem h1), hbrows _ (List.getElem_mem h2)]
      · intro j hj1 hj2
        have hi : i < ar := by omega
        have hjc : j < ac := by
          rw [harows _ (List.getElem_mem h1)] at hj1; exact hj1
        have := h i hi j hjc
        simp only [getCell, List.getD_eq_getElem?_getD] at this
        rwa [List.getElem?_eq_getElem h1, Option.getD_some,
          List.getElem?_eq_getElem hj1, Option.getD_some,
          List.getElem?_eq_getElem h2, Option.getD_some,
          List.getElem?_eq_getElem hj2, Option.getD_some] at this

/-! Lemmas about index-pair enumeration, pool construction and lookup. -/

theorem mem_gridPairs {rows cols : Nat} {rc : Nat × Nat} :
    rc ∈ gridPairs rows cols ↔ rc.1 < rows ∧ rc.2 < cols := by
  cases rc with
  | mk r c =>
    simp only [gridPairs, List.mem_flatMap, List.mem_map, List.mem_range, Prod.mk.injEq]
    constructor
    · rintro ⟨a, ha, b, hb, rfl, rfl⟩
      exact ⟨ha, hb⟩
    · rintro ⟨h1, h2⟩
      exact ⟨r, h1, c, h2, rfl, rfl⟩

theorem nodup_gridPairs (rows cols : Nat) : (gridPairs rows cols).Nodup := by
  unfold gridPairs
  refine List.nodup_flatMap.2 ⟨?_, ?_⟩
  · intro r _
    exact (List.nodup_range _).map (fun a b h => congrArg Prod.snd h)
  · refine (List.nodup_range rows).imp ?_
    intro a b hne
    intro x hxa hxb
    rcases List.mem_map.1 hxa with ⟨c1, _, rfl⟩
    rcases List.mem_map.1 hxb with ⟨c2, _, h2⟩
    exact hne (congrArg Prod.fst h2).symm

theorem mem_setAdd {s : List String} {v x : String} :
    x ∈ setAdd s v ↔ x ∈ s ∨ x = v := by
  unfold setAdd
  by_cases h : v ∈ s
  · simp only [if_pos h]
    constructor
    · exact Or.inl
    · rintro (hx | rfl)
      · exact hx
      · exact h
  · simp [if_neg h]

theorem mem_foldl_setAdd (l : List String) (acc : List String) (x : String) :
    x ∈ l.foldl setAdd acc ↔ x ∈ acc ∨ x ∈ l := by
  induction l generalizing acc with
  | nil => simp
  | cons a t ih =>
    rw [List.foldl_cons, ih, mem_setAdd]
    simp only [List.mem_cons]
    tauto

theorem nodup_setAdd {s : List String} (h : s.Nodup) (v : String) : (setAdd s v).Nodup := by
  unfold setAdd
  by_cases hv : v ∈ s
  · simpa [if_pos hv]
  · rw [if_neg hv]
    simpa [List.nodup_append] using ⟨h, hv⟩

theorem nodup_foldl_setAdd (l : List String) {acc : List String} (h : acc.Nodup) :
    (l.foldl setAdd acc).Nodup := by
  induction l generalizing acc with
  | nil => simpa
  | cons a t ih => exact ih (nodup_setAdd h a)

theorem poolGet_map_of_mem {l : List Nat} {i : Nat} (f : Nat → List String)
    (h : i ∈ l) : poolGet (l.map (fun j => (j, f j))) i = f i := by
  induction l with
  | nil => cases h
  | cons a t ih =>
    simp only [List.map_cons, poolGet]
    by_cases ha : a = i
    · subst ha; simp
    · rw [if_neg ha]
      rcases List.mem_cons.mp h with h1 | h1
      · exact absurd h1.symm ha
      · exact ih h1

/-! Lemmas about the `solved_items` dictionary operations. -/

theorem dictGet_dictAppend_self (d : List (String × List (Nat × Nat))) (k : String)
    (v : Nat × Nat) : dictGet (dictAppend d k v) k = dictGet d k ++ [v] := by
  induction d with
  | nil => simp [dictAppend, dictGet]
  | cons e rest ih =>
    obtain ⟨k', vs⟩ := e
    by_cases h : k' = k
    · subst h
      simp [dictAppend, dictGet]
    · simp only [dictAppend, if_neg h, dictGet, ih]

theorem dictGet_dictAppend_ne (d : List (String × List (Nat × Nat))) {k x : String}
    (hne : x ≠ k) (v : Nat × Nat) : dictGet (dictAppend d k v) x = dictGet d x := by
  induction d with
  | nil => simp [dictAppend, dictGet, if_neg (Ne.symm hne)]
  | cons e rest ih =>
    obtain ⟨k', vs⟩ := e
    by_cases h : k' = k
    · subst h
      have hx : ¬ k' = x := fun he => hne he.symm
      simp only [dictAppend, if_pos rfl, dictGet, if_neg hx]
    · simp only [dictAppend, if_neg h, dictGet, ih]

theorem mem_of_dictGet {d : List (String × List (Nat × Nat))} {x : String}
    (h : dictGet d x ≠ []) : (x, dictGet d x) ∈ d := by
  induction d with
  | nil => simp [dictGet] at h
  | cons e rest ih =>
    obtain ⟨k, vs⟩ := e
    by_cases hk : k = x
    · subst hk
      simp only [dictGet, if_pos rfl]
      exact List.mem_cons_self _ _
    · simp only [dictGet, if_neg hk] at h ⊢
      exact List.mem_cons_of_mem _ (ih h)

theorem dictGet_of_mem {d : List (String × List (Nat × Nat))} {x : String}
    {l : List (Nat × Nat)} (hnd : (d.map Prod.fst).Nodup) (h : (x, l) ∈ d) :
    dictGet d x = l := by
  induction d with
  | nil => cases h
  | cons e rest ih =>
    obtain ⟨k, vs⟩ := e
    rcases List.mem_cons.mp h with heq | hmem
    · cases heq
      simp [dictGet]
    · have hk : k ≠ x := by
        intro hkx
        subst hkx
        have : k ∈ rest.map Prod.fst := List.mem_map.mpr ⟨(k, l), hmem, rfl⟩
        exact (List.nodup_cons.mp hnd).1 this
      simp only [dictGet, if_neg hk]
      exact ih (List.nodup_cons.mp hnd).2 hmem

theorem keys_dictAppend (d : List (String × List (Nat × Nat))) (k : String) (v : Nat × Nat) :
    (dictAppend d k v).map Prod.fst =
      if k ∈ d.map Prod.fst then d.map Prod.fst else d.map Prod.fst ++ [k] := by
  induction d with
  | nil => simp [dictAppend]
  | cons e rest ih =>
    obtain ⟨k', vs⟩ := e
    by_cases h : k' = k
    · subst h
      simp [dictAppend]
    · simp only [dictAppend, if_neg h, List.map_cons, ih, List.mem_cons]
      by_cases hmem : k ∈ rest.map Prod.fst
      · rw [if_pos hmem, if_pos (Or.inr hmem)]
      · rw [if_neg hmem, if_neg (by rintro (h1 | h1); exacts [h h1.symm, hmem h1]),
          List.cons_append]

theorem keys_nodup_dictAppend {d : List (String × List (Nat × Nat))}
    (hnd : (d.map Prod.fst).Nodup) (k : String) (v : Nat × Nat) :
    ((dictAppend d k v).map Prod.fst).Nodup := by
  rw [keys_dictAppend]
  by_cases h : k ∈ d.map Prod.fst
  · rwa [if_pos h]
  · rw [if_neg h, List.nodup_append]
    refine ⟨hnd, List.nodup_singleton _, ?_⟩
    intro a ha hb
    simp only [List.mem_singleton] at hb
    subst hb
    exact h ha

/-- Generic induction principle for the candidate-building fold: any
property of dictionaries that holds for the empty dictionary and is
preserved by `dictAppend` with provenance-constrained arguments holds for
`buildCandidates hp vp`. -/
theorem buildCandidates_induction (hp vp : List (Nat × List String))
    (P : List (String × List (Nat × Nat)) → Prop) (h0 : P [])
    (hstep : ∀ d k rc, P d → (∃ h ∈ hp, k ∈ h.2 ∧ rc.1 = h.1) →
      (∃ v ∈ vp, rc.2 = v.1 ∧ k ∈ v.2) → P (dictAppend d k rc)) :
    P (buildCandidates hp vp) := by
  have hin : ∀ (k : String) (h1 : Nat),
      (∃ h ∈ hp, k ∈ h.2 ∧ h1 = h.1) →
      ∀ vl : List (Nat × List String), (∀ v ∈ vl, v ∈ vp) → ∀ d, P d →
        P (vl.foldl (fun d v => if k ∈ v.2 then dictAppend d k (h1, v.1) else d) d) := by
    intro k h1 hk vl
    induction vl with
    | nil => intro _ d hd; exact hd
    | cons v t ih =>
      intro hsub d hd
      rw [List.foldl_cons]
      refine ih (fun u hu => hsub u (List.mem_cons_of_mem _ hu)) _ ?_
      by_cases hmem : k ∈ v.2
      · rw [if_pos hmem]
        obtain ⟨h, hh, hkh, hh1⟩ := hk
        exact hstep d k (h1, v.1) hd ⟨h, hh, hkh, hh1⟩
          ⟨v, hsub v (List.mem_cons_self _ _), rfl, hmem⟩
      · rwa [if_neg hmem]
  have hmid : ∀ h : Nat × List String, h ∈ hp →
      ∀ hs : List String, (∀ y ∈ hs, y ∈ h.2) → ∀ d, P d →
        P (hs.foldl (fun d item =>
            vp.foldl (fun d v => if item ∈ v.2 then dictAppend d item (h.1, v.1) else d) d) d) := by
    intro h hh hs
    induction hs with
    | nil => intro _ d hd; exact hd
    | cons a t ih =>
      intro hsub d hd
      rw [List.foldl_cons]
      refine ih (fun y hy => hsub y (List.mem_cons_of_mem _ hy)) _ ?_
      exact hin a h.1 ⟨h, hh, hsub a (List.mem_cons_self _ _), rfl⟩ vp (fun _ hv => hv) d hd
  have hout : ∀ hl : List (Nat × List String), (∀ h ∈ hl, h ∈ hp) → ∀ d, P d →
      P (hl.foldl (fun d h =>
          h.2.foldl (fun d item =>
            vp.foldl (fun d v => if item ∈ v.2 then dictAppend d item (h.1, v.1) else d) d) d) d) := by
    intro hl
    induction hl with
    | nil => intro _ d hd; exact hd
    | cons h t ih =>
      intro hsub d hd
      rw [List.foldl_cons]
      exact ih (fun u hu => hsub u (List.mem_cons_of_mem _ hu)) _
        (hmid h (hsub h (List.mem_cons_self _ _)) h.2 (fun _ hy => hy) d hd)
  exact hout hp (fun _ hh => hh) [] h0

theorem keys_nodup_buildCandidates (hp vp : List (Nat × List String)) :
    ((buildCandidates hp vp).map Prod.fst).Nodup :=
  buildCandidates_induction hp vp (fun d => (d.map Prod.fst).Nodup) (by simp)
    (fun d k rc hd _ _ => keys_nodup_dictAppend hd k rc)

/-- Provenance invariant of the candidate dictionary: every key occurs in
some h-pool and every recorded coordinate pair comes from an h-pool key and
a v-pool key whose pools contain the item. -/
def dictInv (hp vp : List (Nat × List String)) (d : List (String × List (Nat × Nat))) : Prop :=
  ∀ e ∈ d, (∃ h ∈ hp, e.1 ∈ h.2) ∧
    ∀ rc ∈ e.2, (∃ h ∈ hp, e.1 ∈ h.2 ∧ rc.1 = h.1) ∧ (∃ v ∈ vp, rc.2 = v.1 ∧ e.1 ∈ v.2)

theorem dictInv_dictAppend {hp vp : List (Nat × List String)}
    {d : List (String × List (Nat × Nat))} {k : String} {rc : Nat × Nat}
    (hd : dictInv hp vp d) (hk : ∃ h ∈ hp, k ∈ h.2 ∧ rc.1 = h.1)
    (hv : ∃ v ∈ vp, rc.2 = v.1 ∧ k ∈ v.2) : dictInv hp vp (dictAppend d k rc) := by
  induction d with
  | nil =>
    intro e he
    simp only [dictAppend, List.mem_singleton] at he
    subst he
    obtain ⟨h, hh, hkh, hrc⟩ := hk
    refine ⟨⟨h, hh, hkh⟩, ?_⟩
    intro rc' hrc'
    simp only [List.mem_singleton] at hrc'
    subst hrc'
    exact ⟨⟨h, hh, hkh, hrc⟩, hv⟩
  | cons e0 rest ih =>
    obtain ⟨k', vs⟩ := e0
    have hd0 := hd _ (List.mem_cons_self _ _)
    have hdrest : dictInv hp vp rest := fun e he => hd e (List.mem_cons_of_mem _ he)
    by_cases h : k' = k
    · subst h
      have hred : dictAppend ((k', vs) :: rest) k' rc = (k', vs ++ [rc]) :: rest := by
        simp [dictAppend]
      rw [hred]
      intro e he
      rcases List.mem_cons.mp he with heq | he2
      · subst heq
        refine ⟨hd0.1, ?_⟩
        intro rc' hrc'
        rcases List.mem_append.mp hrc' with hmem | hmem
        · exact hd0.2 rc' hmem
        · simp only [List.mem_singleton] at hmem
          subst hmem
          obtain ⟨h, hh, hkh, hrc⟩ := hk
          exact ⟨⟨h, hh, hkh, hrc⟩, hv⟩
      · exact hdrest e he2
    · have hred : dictAppend ((k', vs) :: rest) k rc = (k', vs) :: dictAppend rest k rc := by
        simp [dictAppend, h]
      rw [hred]
      intro e he
      rcases List.mem_cons.mp he with heq | he2
      · subst heq
        exact hd0
      · exact ih hdrest e he2

theorem dictInv_buildCandidates (hp vp : List (Nat × List String)) :
    dictInv hp vp (buildCandidates hp vp) :=
  buildCandidates_induction hp vp (dictInv hp vp) (fun e he => absurd he (List.not_mem_nil e))
    (fun _ k rc hd hk hv => dictInv_dictAppend hd
      (by obtain ⟨h, hh, h1, h2⟩ := hk; exact ⟨h, hh, h1, h2⟩) hv)

/-! Characterization of the candidate lists built by `buildCandidates`. -/

theorem dictGet_vfold (vl : List (Nat × List String))
    (d : List (String × List (Nat × Nat))) (item : String) (h1 : Nat) (x : String) :
    dictGet (vl.foldl (fun d v => if item ∈ v.2 then dictAppend d item (h1, v.1) else d) d) x
      = dictGet d x ++
        (if item = x then (vl.filter (fun v => decide (x ∈ v.2))).map (fun v => (h1, v.1))
         else []) := by
  induction vl generalizing d with
  | nil => simp
  | cons v t ih =>
    rw [List.foldl_cons]
    by_cases hmem : item ∈ v.2
    · rw [if_pos hmem, ih]
      by_cases hx : item = x
      · subst hx
        rw [dictGet_dictAppend_self, if_pos rfl, if_pos rfl,
          List.filter_cons_of_pos (by simpa using hmem), List.map_cons, List.append_assoc,
          List.singleton_append]
      · rw [dictGet_dictAppend_ne _ (fun he => hx he.symm), if_neg hx, if_neg hx]
    · rw [if_neg hmem, ih]
      by_cases hx : item = x
      · subst hx
        rw [List.filter_cons_of_neg (by simpa using hmem)]
      · rw [if_neg hx, if_neg hx]

theorem dictGet_hsetfold (hs : List String) (vp : List (Nat × List String))
    (d : List (String × List (Nat × Nat))) (h1 : Nat) (x : String) :
    dictGet (hs.foldl (fun d item =>
        vp.foldl (fun d v => if item ∈ v.2 then dictAppend d item (h1, v.1) else d) d) d) x
      = dictGet d x ++
        (hs.filter (fun y => decide (y = x))).flatMap
          (fun _ => (vp.filter (fun v => decide (x ∈ v.2))).map (fun v => (h1, v.1))) := by
  induction hs generalizing d with
  | nil => simp
  | cons a t ih =>
    rw [List.foldl_cons, ih, dictGet_vfold]
    by_cases hx : a = x
    · subst hx
      rw [if_pos rfl, List.filter_cons_of_pos (by simp), List.flatMap_cons, List.append_assoc]
    · rw [if_neg hx, List.filter_cons_of_neg (by simpa using hx), List.append_nil]

theorem dictGet_buildCandidates (hp vp : List (Nat × List String)) (x : String) :
    dictGet (buildCandidates hp vp) x
      = hp.flatMap (fun h =>
          (h.2.filter (fun y => decide (y = x))).flatMap
            (fun _ => (vp.filter (fun v => decide (x ∈ v.2))).map (fun v => (h.1, v.1)))) := by
  have hout : ∀ (hl : List (Nat × List String)) (d : List (String × List (Nat × Nat))),
      dictGet (hl.foldl (fun d h =>
          h.2.foldl (fun d item =>
            vp.foldl (fun d v => if item ∈ v.2 then dictAppend d item (h.1, v.1) else d) d) d) d) x
        = dictGet d x ++
          hl.flatMap (fun h =>
            (h.2.filter (fun y => decide (y = x))).flatMap
              (fun _ => (vp.filter (fun v => decide (x ∈ v.2))).map (fun v => (h.1, v.1)))) := by
    intro hl
    induction hl with
    | nil => simp
    | cons h t ih =>
      intro d
      rw [List.foldl_cons, ih, dictGet_hsetfold, List.flatMap_cons, List.append_assoc]
  have := hout hp []
  simpa [buildCandidates, dictGet] using this

theorem filter_eq_of_nodup {l : List String} (hnd : l.Nodup) (x : String) :
    l.filter (fun y => decide (y = x)) = if x ∈ l then [x] else [] := by
  induction l with
  | nil => simp
  | cons a t ih =>
    rcases List.nodup_cons.mp hnd with ⟨hna, hnt⟩
    by_cases ha : a = x
    · subst ha
      rw [List.filter_cons_of_pos (by simp), ih hnt, if_neg hna, if_pos (List.mem_cons_self _ _)]
    · rw [List.filter_cons_of_neg (by simpa using ha), ih hnt]
      by_cases hx : x ∈ t
      · rw [if_pos hx, if_pos (List.mem_cons_of_mem _ hx)]
      · rw [if_neg hx, if_neg (by simp [ha, hx]; exact fun he => ha he.symm)]

/-- With duplicate-free pool sets, the candidate list stored by `solve` for
an item is exactly the claim-side `candList`. -/
theorem dictGet_eq_candList {hp : List (Nat × List String)} (vp : List (Nat × List String))
    (hnodup : ∀ h ∈ hp, h.2.Nodup) (x : String) :
    dictGet (buildCandidates hp vp) x = candList hp vp x := by
  rw [dictGet_buildCandidates, candList]
  induction hp with
  | nil => simp
  | cons h t ih =>
    rw [List.flatMap_cons, List.flatMap_cons,
      ih (fun e he => hnodup e (List.mem_cons_of_mem _ he)),
      filter_eq_of_nodup (hnodup h (List.mem_cons_self _ _))]
    by_cases hx : x ∈ h.2
    · rw [if_pos hx, if_pos hx, List.flatMap_cons, List.flatMap_nil, List.append_nil]
    · rw [if_neg hx, if_neg hx, List.flatMap_nil]

/-! The placement loop. -/

/-- The value that the placement loop of `solve` leaves at cell `(r, c)`:
the last dictionary entry (in iteration order) whose candidate list is
exactly `[(r, c)]`, if any. -/
def placedVal : List (String × List (Nat × Nat)) → Nat → Nat → Option String
  | [], _, _ => none
  | (x, l) :: rest, r, c =>
      match placedVal rest r c with
      | some y => some y
      | none => if l = [(r, c)] then some x else none

theorem placedVal_some_mem {d : List (String × List (Nat × Nat))} {r c : Nat} {y : String}
    (h : placedVal d r c = some y) : (y, [(r, c)]) ∈ d := by
  induction d with
  | nil => simp [placedVal] at h
  | cons e rest ih =>
    obtain ⟨x, l⟩ := e
    simp only [placedVal] at h
    cases hrest : placedVal rest r c with
    | some z =>
      rw [hrest] at h
      cases h
      exact List.mem_cons_of_mem _ (ih hrest)
    | none =>
      rw [hrest] at h
      by_cases hl : l = [(r, c)]
      · rw [if_pos hl] at h
        cases h
        subst hl
        exact List.mem_cons_self _ _
      · rw [if_neg hl] at h
        cases h

theorem placedVal_none_iff {d : List (String × List (Nat × Nat))} {r c : Nat} :
    placedVal d r c = none ↔ ∀ e ∈ d, e.2 ≠ [(r, c)] := by
  induction d with
  | nil => simp [placedVal]
  | cons e rest ih =>
    obtain ⟨x, l⟩ := e
    simp only [placedVal]
    cases hrest : placedVal rest r c with
    | some z =>
      simp only [reduceCtorEq, false_iff]
      intro hall
      have := ih.mpr (fun e he => hall e (List.mem_cons_of_mem _ he))
      rw [this] at hrest
      cases hrest
    | none =>
      constructor
      · intro h e he
        rcases List.mem_cons.mp he with heq | hmem
        · subst heq
          by_cases hl : l = [(r, c)]
          · rw [if_pos hl] at h
            cases h
          · simpa using hl
        · exact ih.mp hrest e hmem
      · intro hall
        rw [if_neg (by simpa using hall (x, l) (List.mem_cons_self _ _))]

theorem placedVal_unique {d : List (String × List (Nat × Nat))} {r c : Nat} {x : String}
    (hmem : (x, [(r, c)]) ∈ d)
    (huniq : ∀ y l, (y, l) ∈ d → l = [(r, c)] → y = x) :
    placedVal d r c = some x := by
  cases h : placedVal d r c with
  | some y =>
    have := placedVal_some_mem h
    rw [huniq y [(r, c)] this rfl]
  | none =>
    exact absurd rfl (placedVal_none_iff.mp h (x, [(r, c)]) hmem)

theorem insert_ok {p : PlateSet} {r c : Nat} (hr : r < p.num_rows) (hc : c < p.num_cols)
    (v : String) : p.insert v (r : Int) (c : Int) = .ok (setCell p r c v) := by
  unfold PlateSet.insert
  rw [if_pos]
  · simp
  · exact ⟨⟨Int.ofNat_nonneg r, by exact_mod_cast hr⟩, ⟨Int.ofNat_nonneg c, by exact_mod_cast hc⟩⟩

/-- Main lemma about the placement loop: when every candidate coordinate is
in range, it succeeds, preserves shape, and each cell holds the last
uniquely-listed item for that coordinate (or the previous content). -/
theorem placeLoop_ok (d : List (String × List (Nat × Nat))) (g : PlateSet) (hWF : g.WF)
    (hb : ∀ e ∈ d, ∀ rc ∈ e.2, rc.1 < g.num_rows ∧ rc.2 < g.num_cols) :
    ∃ g', placeLoop d g = .ok g' ∧ g'.num_rows = g.num_rows ∧ g'.num_cols = g.num_cols ∧
      g'.WF ∧ ∀ r c, getCell g' r c = (placedVal d r c).getD (getCell g r c) := by
  induction d generalizing g with
  | nil => exact ⟨g, rfl, rfl, rfl, hWF, by simp [placedVal]⟩
  | cons e rest ih =>
    obtain ⟨x, cands⟩ := e
    match cands, hb with
    | [], hb =>
      obtain ⟨g', h1, h2, h3, h4, h5⟩ :=
        ih g hWF (fun e he => hb e (List.mem_cons_of_mem _ he))
      refine ⟨g', h1, h2, h3, h4, ?_⟩
      intro r c
      rw [h5]
      simp only [placedVal]
      cases placedVal rest r c with
      | some y => rfl
      | none => simp
    | [(a, b)], hb =>
      have hrc := (hb _ (List.mem_cons_self _ _)) (a, b) (List.mem_singleton.mpr rfl)
      have hins : PlateSet.insert g x ((a : Nat) : Int) ((b : Nat) : Int) =
          .ok (setCell g a b x) := insert_ok hrc.1 hrc.2 x
      obtain ⟨g', h1, h2, h3, h4, h5⟩ :=
        ih (setCell g a b x) (WF_setCell hWF _ _ _)
          (fun e he => by
            simpa using hb e (List.mem_cons_of_mem _ he))
      refine ⟨g', ?_, by simpa using h2, by simpa using h3, h4, ?_⟩
      · simpa [placeLoop, hins] using h1
      · intro r c
        rw [h5]
        simp only [placedVal]
        cases placedVal rest r c with
        | some y => rfl
        | none =>
          simp only [Option.getD_none]
          by_cases heq : a = r ∧ b = c
          · obtain ⟨rfl, rfl⟩ := heq
            rw [if_pos rfl, Option.getD_some, getCell_setCell_self hWF hrc.1 hrc.2]
          · rw [if_neg (by simp only [List.cons.injEq, Prod.mk.injEq, and_true]; exact heq),
              Option.getD_none,
              getCell_setCell_ne (by
                rintro ⟨h1, h2⟩
                exact heq ⟨h1.symm, h2.symm⟩)]
    | rc1 :: rc2 :: tl, hb =>
      obtain ⟨g', h1, h2, h3, h4, h5⟩ :=
        ih g hWF (fun e he => hb e (List.mem_cons_of_mem _ he))
      refine ⟨g', h1, h2, h3, h4, ?_⟩
      intro r c
      rw [h5]
      simp only [placedVal]
      cases placedVal rest r c with
      | some y => rfl
      | none => simp

/-! Characterization of the pool dictionaries. -/

theorem mem_row_iff {p : PlateSet} (hWF : p.WF) {i : Nat} (hi : i < p.num_rows) (x : String) :
    x ∈ p.grid.getD i [] ↔ ∃ c < p.num_cols, getCell p i c = x := by
  obtain ⟨hlen, hrows⟩ := hWF
  have hi' : i < p.grid.length := by omega
  have hrowD : p.grid.getD i [] = p.grid[i] := by
    rw [List.getD_eq_getElem?_getD, List.getElem?_eq_getElem hi', Option.getD_some]
  have hrowlen : (p.grid.getD i []).length = p.num_cols := by
    rw [hrowD]; exact hrows _ (List.getElem_mem hi')
  constructor
  · intro hmem
    obtain ⟨c, hc, hcx⟩ := List.mem_iff_getElem.mp hmem
    refine ⟨c, by omega, ?_⟩
    rw [getCell, List.getD_eq_getElem?_getD, List.getElem?_eq_getElem hc, Option.getD_some, hcx]
  · rintro ⟨c, hc, hcx⟩
    have hc' : c < (p.grid.getD i []).length := by omega
    rw [getCell, List.getD_eq_getElem?_getD, List.getElem?_eq_getElem hc', Option.getD_some] at hcx
    exact hcx ▸ List.getElem_mem hc'

theorem poolGet_hpools {p : PlateSet} (hWF : p.WF) {i : Nat} (hi : i < p.num_rows)
    (x : String) : x ∈ poolGet p.hpools i ↔ ∃ c < p.num_cols, getCell p i c = x := by
  unfold PlateSet.hpools
  rw [poolGet_map_of_mem _ (List.mem_range.mpr hi), mem_foldl_setAdd]
  simp only [List.not_mem_nil, false_or]
  exact mem_row_iff hWF hi x

theorem poolGet_vpools {p : PlateSet} {j : Nat} (hj : j < p.num_cols) (x : String) :
    x ∈ poolGet p.vpools j ↔ ∃ r < p.num_rows, getCell p r j = x := by
  unfold PlateSet.vpools
  rw [poolGet_map_of_mem _ (List.mem_range.mpr hj), mem_foldl_setAdd]
  simp only [List.not_mem_nil, false_or, List.mem_map, List.mem_range]

theorem mem_hpools {p : PlateSet} {e : Nat × List String} (h : e ∈ p.hpools) :
    e.1 < p.num_rows ∧ e.2 = (p.grid.getD e.1 []).foldl setAdd [] := by
  unfold PlateSet.hpools at h
  obtain ⟨i, hi, heq⟩ := List.mem_map.mp h
  cases heq
  exact ⟨List.mem_range.mp hi, rfl⟩

theorem mem_vpools {p : PlateSet} {e : Nat × List String} (h : e ∈ p.vpools) :
    e.1 < p.num_cols ∧
      e.2 = ((List.range p.num_rows).map (fun i => getCell p i e.1)).foldl setAdd [] := by
  unfold PlateSet.vpools at h
  obtain ⟨j, hj, heq⟩ := List.mem_map.mp h
  cases heq
  exact ⟨List.mem_range.mp hj, rfl⟩

theorem hpools_sets_nodup (p : PlateSet) : ∀ e ∈ p.hpools, e.2.Nodup := by
  intro e he
  rw [(mem_hpools he).2]
  exact nodup_foldl_setAdd _ (List.nodup_nil)

/-- Claim C3 counterexample: in a freshly constructed 1×1 grid (one empty
cell), the sentinel value IS a member of the row pool for row 0 and of the
column pool for column 0, contradicting "the sentinel never appears as a
member of any row-pool or column-pool set". -/
theorem hpools_contain_sentinel :
    nullStr ∈ poolGet (PlateSet.mk0 1 1).hpools 0 ∧
    nullStr ∈ poolGet (PlateSet.mk0 1 1).vpools 0 := by decide

/-- Claim C3 (amended): for a well-formed grid, `hpools` maps each row
index to the set of ALL distinct cell values present in that row —
including the sentinel whenever some cell of the row is empty — and
`vpools` does the same per column; the pools do not filter out the
sentinel. -/
theorem hpools_vpools_exact (p : PlateSet) (hWF : p.WF) :
    (∀ i < p.num_rows, ∀ x : String,
      x ∈ poolGet p.hpools i ↔ ∃ c < p.num_cols, getCell p i c = x) ∧
    (∀ j < p.num_cols, ∀ x : String,
      x ∈ poolGet p.vpools j ↔ ∃ r < p.num_rows, getCell p r j = x) :=
  ⟨fun _ hi x => poolGet_hpools hWF hi x, fun _ hj x => poolGet_vpools hj x⟩

/-- Witness for the amended C3 theorem at a concrete grid. -/
theorem hpools_vpools_exact_witness :
    nullStr ∈ poolGet (PlateSet.mk0 2 3).hpools 0 :=
  ((hpools_vpools_exact (PlateSet.mk0 2 3) (by decide)).1 0 (by decide) nullStr).mpr
    ⟨0, by decide, by decide⟩

/-! Claim C2: behaviour of `solve` on arbitrary pool dictionaries. -/

/-- Claim C2 counterexample: with pools `{0: {A, B}}` / `{0: {A, B}}` on a
1×1 grid, item `A` has exactly one candidate pair `(0, 0)`, yet `solve`
does not place `A` at `(0, 0)`: both items have the same unique candidate
and the later insert overwrites the earlier one, so the returned grid holds
`B`. This refutes the claimed "if and only if". -/
theorem solve_unique_candidate_not_placed :
    candList [(0, ["A", "B"])] [(0, ["A", "B"])] "A" = [(0, 0)] ∧
    ∃ R, solve [(0, ["A", "B"])] [(0, ["A", "B"])] 1 1 = .ok R ∧ getCell R 0 0 ≠ "A" :=
  ⟨by decide, ⟨⟨1, 1, [["B"]]⟩, rfl, by decide⟩⟩

/-- Claim C2 (amended): for pool dictionaries whose indices lie within the
declared dimensions, whose pool sets are duplicate-free and do not contain
the sentinel, `solve` succeeds and: a non-sentinel output cell `(r, c)`
always holds an item whose candidate list is exactly `[(r, c)]`; whenever
SOME item has candidate list exactly `[(r, c)]` the output cell `(r, c)` is
occupied (by such an item, though not necessarily that one — a later item
with the same unique candidate overwrites an earlier one); and an item with
two or more candidates is never placed anywhere. -/
theorem solve_characterization (hp vp : List (Nat × List String)) (rows cols : Nat)
    (hKr : ∀ e ∈ hp, e.1 < rows) (hKc : ∀ e ∈ vp, e.1 < cols)
    (hnodup : ∀ e ∈ hp, e.2.Nodup) (hnull : ∀ e ∈ hp, nullStr ∉ e.2) :
    ∃ R, solve hp vp rows cols = .ok R ∧
      (∀ r c, getCell R r c ≠ nullStr → candList hp vp (getCell R r c) = [(r, c)]) ∧
      (∀ x r c, candList hp vp x = [(r, c)] → getCell R r c ≠ nullStr) ∧
      (∀ x r c, x ≠ nullStr → 2 ≤ (candList hp vp x).length → getCell R r c ≠ x) := by
  have hinv := dictInv_buildCandidates hp vp
  have hkeys := keys_nodup_buildCandidates hp vp
  have hcand : ∀ x, dictGet (buildCandidates hp vp) x = candList hp vp x :=
    dictGet_eq_candList vp hnodup
  have hbounds : ∀ e ∈ buildCandidates hp vp, ∀ rc ∈ e.2,
      rc.1 < (PlateSet.mk0 rows cols).num_rows ∧ rc.2 < (PlateSet.mk0 rows cols).num_cols := by
    intro e he rc hrc
    obtain ⟨_, hcoords⟩ := hinv e he
    obtain ⟨⟨h, hh, _, hr1⟩, ⟨v, hv, hr2, _⟩⟩ := hcoords rc hrc
    exact ⟨hr1 ▸ hKr h hh, hr2 ▸ hKc v hv⟩
  obtain ⟨R, hR, hrows, hcols, hWFR, hcells⟩ :=
    placeLoop_ok (buildCandidates hp vp) (PlateSet.mk0 rows cols) (WF_mk0 rows cols) hbounds
  have hcell0 : ∀ r c, getCell R r c =
      (placedVal (buildCandidates hp vp) r c).getD nullStr := by
    intro r c
    rw [hcells, getCell_mk0]
  have hmain : ∀ r c, getCell R r c ≠ nullStr → candList hp vp (getCell R r c) = [(r, c)] := by
    intro r c hne
    rw [hcell0] at hne ⊢
    cases hpv : placedVal (buildCandidates hp vp) r c with
    | none => rw [hpv] at hne; simp at hne
    | some y =>
      simp only [Option.getD_some]
      have hmem := placedVal_some_mem hpv
      rw [← hcand]
      exact dictGet_of_mem hkeys hmem
  refine ⟨R, hR, hmain, ?_, ?_⟩
  · intro x r c hx
    have hdx : dictGet (buildCandidates hp vp) x = [(r, c)] := by rw [hcand]; exact hx
    have hmem : (x, [(r, c)]) ∈ buildCandidates hp vp := by
      have := mem_of_dictGet (d := buildCandidates hp vp) (x := x) (by rw [hdx]; simp)
      rwa [hdx] at this
    rw [hcell0]
    cases hpv : placedVal (buildCandidates hp vp) r c with
    | none =>
      exact absurd rfl (placedVal_none_iff.mp hpv (x, [(r, c)]) hmem)
    | some y =>
      simp only [Option.getD_some]
      have hymem := placedVal_some_mem hpv
      obtain ⟨⟨h, hh, hy⟩, _⟩ := hinv _ hymem
      intro hynull
      rw [hynull] at hy
      exact hnull h hh hy
  · intro x r c hxnull hlen hcell
    have := hmain r c (by rw [hcell]; exact hxnull)
    rw [hcell] at this
    rw [this] at hlen
    simp at hlen

/-- Witness for the amended C2 theorem at a concrete input. -/
theorem solve_characterization_witness :
    ∃ R, solve [(0, ["AAAAA"])] [(0, ["AAAAA"])] 1 1 = .ok R ∧
      (∀ r c, getCell R r c ≠ nullStr →
        candList [(0, ["AAAAA"])] [(0, ["AAAAA"])] (getCell R r c) = [(r, c)]) ∧
      (∀ x r c, candList [(0, ["AAAAA"])] [(0, ["AAAAA"])] x = [(r, c)] →
        getCell R r c ≠ nullStr) ∧
      (∀ x r c, x ≠ nullStr → 2 ≤ (candList [(0, ["AAAAA"])] [(0, ["AAAAA"])] x).length →
        getCell R r c ≠ x) :=
  solve_characterization [(0, ["AAAAA"])] [(0, ["AAAAA"])] 1 1
    (by decide) (by decide) (by decide) (by decide)

/-! Claim C1: the round-trip property of `solve` on collision-free grids. -/

theorem range_flatMap_single {α : Type} {n r : Nat} (hr : r < n) (f : Nat → List α)
    (hf : ∀ i < n, i ≠ r → f i = []) : (List.range n).flatMap f = f r := by
  induction n with
  | zero => omega
  | succ m ih =>
    rw [List.range_succ, List.flatMap_append]
    by_cases hrm : r = m
    · subst hrm
      have h1 : (List.range r).flatMap f = [] :=
        List.flatMap_eq_nil_iff.mpr (fun i hi =>
          hf i (by have := List.mem_range.mp hi; omega)
            (by have := List.mem_range.mp hi; omega))
      rw [h1]
      simp
    · have hrlt : r < m := by omega
      rw [ih hrlt (fun i hi hir => hf i (by omega) hir)]
      have hm : f m = [] := hf m (by omega) (fun he => hrm he.symm)
      simp [hm]

theorem range_filter_single {n r : Nat} (hr : r < n) (p : Nat → Bool)
    (hp : ∀ i < n, (p i = true ↔ i = r)) : (List.range n).filter p = [r] := by
  induction n with
  | zero => omega
  | succ m ih =>
    rw [List.range_succ, List.filter_append]
    by_cases hrm : r = m
    · subst hrm
      have h1 : (List.range r).filter p = [] := by
        rw [List.filter_eq_nil_iff]
        intro a ha
        have halt := List.mem_range.mp ha
        intro hpa
        have := (hp a (by omega)).mp hpa
        omega
      rw [h1, List.nil_append]
      have hpr : p r = true := (hp r (by omega)).mpr rfl
      simp [List.filter, hpr]
    · have hrlt : r < m := by omega
      rw [ih hrlt (fun i hi => hp i (by omega))]
      have hm : p m = false := by
        cases hpm : p m
        · rfl
        · exact absurd ((hp m (by omega)).mp hpm).symm hrm
      simp [List.filter, hm]

/-- In a grid with pairwise-distinct cells, the candidate list of a cell
value is exactly its coordinate. -/
theorem candList_cell {G : PlateSet} (hWF : G.WF)
    (hdist : ∀ r < G.num_rows, ∀ c < G.num_cols, ∀ r' < G.num_rows, ∀ c' < G.num_cols,
      getCell G r c = getCell G r' c' → r = r' ∧ c = c')
    {r c : Nat} (hr : r < G.num_rows) (hc : c < G.num_cols) :
    candList G.hpools G.vpools (getCell G r c) = [(r, c)] := by
  have hxrow : ∀ i, i < G.num_rows →
      ((getCell G r c ∈ (G.grid.getD i []).foldl setAdd []) ↔ i = r) := by
    intro i hi
    rw [mem_foldl_setAdd]
    simp only [List.not_mem_nil, false_or]
    rw [mem_row_iff hWF hi]
    constructor
    · rintro ⟨c', hc', hxc⟩
      exact (hdist i hi c' hc' r hr c hc hxc).1
    · rintro rfl
      exact ⟨c, hc, rfl⟩
  have hxcol : ∀ j, j < G.num_cols →
      ((getCell G r c ∈
        ((List.range G.num_rows).map (fun i => getCell G i j)).foldl setAdd []) ↔ j = c) := by
    intro j hj
    rw [mem_foldl_setAdd]
    simp only [List.not_mem_nil, false_or, List.mem_map, List.mem_range]
    constructor
    · rintro ⟨r', hr', hxc⟩
      exact (hdist r' hr' j hj r hr c hc hxc).2
    · rintro rfl
      exact ⟨r, hr, rfl⟩
  unfold candList PlateSet.hpools
  rw [List.flatMap_map]
  rw [range_flatMap_single hr]
  · rw [if_pos ((hxrow r hr).mpr rfl)]
    unfold PlateSet.vpools
    rw [List.filter_map]
    have hfil : (List.range G.num_cols).filter
        ((fun v => decide (getCell G r c ∈ v.2)) ∘
          (fun j => (j, ((List.range G.num_rows).map (fun i => getCell G i j)).foldl setAdd [])))
        = [c] := by
      apply range_filter_single hc
      intro j hj
      simp only [Function.comp_apply, decide_eq_true_eq]
      exact hxcol j hj
    rw [hfil]
    simp
  · intro i hi hir
    rw [if_neg]
    intro hmem
    exact hir ((hxrow i hi).mp hmem)

/-- Claim C1: for every well-formed grid with positive dimensions whose
cells all hold pairwise-distinct (non-sentinel) values, `solve` applied to
its row and column pools reconstructs the grid exactly. -/
theorem solve_roundtrip (G : PlateSet) (hWF : G.WF)
    (hrows : 0 < G.num_rows) (hcols : 0 < G.num_cols)
    (hnn : ∀ r < G.num_rows, ∀ c < G.num_cols, getCell G r c ≠ nullStr)
    (hdist : ∀ r < G.num_rows, ∀ c < G.num_cols, ∀ r' < G.num_rows, ∀ c' < G.num_cols,
      getCell G r c = getCell G r' c' → r = r' ∧ c = c') :
    solve G.hpools G.vpools G.num_rows G.num_cols = .ok G := by
  have hpnodup := hpools_sets_nodup G
  have hcand : ∀ x, dictGet (buildCandidates G.hpools G.vpools) x
      = candList G.hpools G.vpools x := dictGet_eq_candList _ hpnodup
  have hinv := dictInv_buildCandidates G.hpools G.vpools
  have hkeys := keys_nodup_buildCandidates G.hpools G.vpools
  have hentry : ∀ e ∈ buildCandidates G.hpools G.vpools,
      ∃ r' c', r' < G.num_rows ∧ c' < G.num_cols ∧
        e.1 = getCell G r' c' ∧ e.2 = [(r', c')] := by
    intro e he
    obtain ⟨y, l⟩ := e
    obtain ⟨⟨h, hh, hmemh⟩, _⟩ := hinv (y, l) he
    obtain ⟨hr1, hset⟩ := mem_hpools hh
    simp only at hmemh
    rw [hset, mem_foldl_setAdd] at hmemh
    simp only [List.not_mem_nil, false_or] at hmemh
    obtain ⟨c', hc', hval⟩ := (mem_row_iff hWF hr1 _).mp hmemh
    refine ⟨h.1, c', hr1, hc', hval.symm, ?_⟩
    have hd := dictGet_of_mem hkeys he
    rw [hcand] at hd
    rw [← hd, ← hval, candList_cell hWF hdist hr1 hc']
  have hbounds : ∀ e ∈ buildCandidates G.hpools G.vpools, ∀ rc ∈ e.2,
      rc.1 < (PlateSet.mk0 G.num_rows G.num_cols).num_rows ∧
      rc.2 < (PlateSet.mk0 G.num_rows G.num_cols).num_cols := by
    intro e he rc hrc
    obtain ⟨r', c', hr', hc', _, hl⟩ := hentry e he
    rw [hl] at hrc
    simp only [List.mem_singleton] at hrc
    subst hrc
    exact ⟨hr', hc'⟩
  obtain ⟨R, hR, hRrows, hRcols, hWFR, hcells⟩ :=
    placeLoop_ok (buildCandidates G.hpools G.vpools)
      (PlateSet.mk0 G.num_rows G.num_cols) (WF_mk0 _ _) hbounds
  have hRG : R = G := by
    refine plateSet_ext hWFR hWF hRrows hRcols ?_
    intro r hrR c hcR
    have hr : r < G.num_rows := by
      rw [hRrows] at hrR
      exact hrR
    have hc : c < G.num_cols := by
      rw [hRcols] at hcR
      exact hcR
    have hdx : dictGet (buildCandidates G.hpools G.vpools) (getCell G r c) = [(r, c)] := by
      rw [hcand, candList_cell hWF hdist hr hc]
    have hmem : (getCell G r c, [(r, c)]) ∈ buildCandidates G.hpools G.vpools := by
      have := mem_of_dictGet (d := buildCandidates G.hpools G.vpools)
        (x := getCell G r c) (by rw [hdx]; simp)
      rwa [hdx] at this
    have huniq : ∀ y l, (y, l) ∈ buildCandidates G.hpools G.vpools →
        l = [(r, c)] → y = getCell G r c := by
      intro y l hyl hlrc
      obtain ⟨r', c', hr', hc', hy, hl⟩ := hentry (y, l) hyl
      rw [hlrc] at hl
      simp only [List.cons.injEq, Prod.mk.injEq, and_true] at hl
      rw [← hl.1, ← hl.2] at hy
      exact hy
    have hplaced := placedVal_unique hmem huniq
    rw [hcells, hplaced, Option.getD_some]
  unfold solve
  rw [hR, hRG]

/-- Witness for the round-trip theorem at a concrete 1×2 grid. -/
theorem solve_roundtrip_witness :
    solve (PlateSet.mk 1 2 [["AAAAA", "BBBBB"]]).hpools
        (PlateSet.mk 1 2 [["AAAAA", "BBBBB"]]).vpools
        (PlateSet.mk 1 2 [["AAAAA", "BBBBB"]]).num_rows
        (PlateSet.mk 1 2 [["AAAAA", "BBBBB"]]).num_cols
      = .ok (PlateSet.mk 1 2 [["AAAAA", "BBBBB"]]) :=
  solve_roundtrip (PlateSet.mk 1 2 [["AAAAA", "BBBBB"]])
    (by decide) (by decide) (by decide)
    (show ∀ r < 1, ∀ c < 2,
        getCell (PlateSet.mk 1 2 [["AAAAA", "BBBBB"]]) r c ≠ nullStr by decide)
    (show ∀ r < 1, ∀ c < 2, ∀ r' < 1, ∀ c' < 2,
        getCell (PlateSet.mk 1 2 [["AAAAA", "BBBBB"]]) r c =
          getCell (PlateSet.mk 1 2 [["AAAAA", "BBBBB"]]) r' c' → r = r' ∧ c = c' by
      intro r hr c hc r' hr' c' hc' h
      interval_cases r <;> interval_cases r' <;> interval_cases c <;> interval_cases c' <;>
        first
        | exact ⟨rfl, rfl⟩
        | exact absurd h (by decide))

/-! Claim C4: `is_equal_to` on grids of different dimensions. -/

/-- Claim C4 (code bug): due to the precedence slip in
`if not self.num_rows == other.num_rows and self.num_cols == other.num_cols`,
comparing a fresh 1×1 grid with a fresh 2×2 grid returns True even though
the dimensions differ, contradicting "returns False whenever the two grids
have different dimensions". -/
theorem is_equal_to_dim_mismatch_true :
    (PlateSet.mk0 1 1).num_rows ≠ (PlateSet.mk0 2 2).num_rows ∧
    (PlateSet.mk0 1 1).num_cols ≠ (PlateSet.mk0 2 2).num_cols ∧
    is_equal_to (PlateSet.mk0 1 1) (PlateSet.mk0 2 2) = .ok true :=
  ⟨by decide, by decide, rfl⟩

/-! Claim C5: dynamic type validation in the constructor. -/

/-- Claim C5 counterexample, both directions. `(2.0, 3)`: `2.0` is an
integer-valued real and `3` an integer, so the claim demands acceptance,
but only the both-floats branch coerces, so `2.0` reaches the outer
`range(2.0)` and raises a `TypeError`. `(0, "a")`: an integer mixed with a
non-numeric argument, which the claim demands be rejected with a type
error, but the empty outer `range(0)` short-circuits the grid
comprehension, the inner `range("a")` is never evaluated, and the object
is constructed successfully. -/
theorem initPlate_original_iff_fails :
    (validDim (PyVal.vfloat 2) = true ∧ validDim (PyVal.vint 3) = true ∧
      initPlate (PyVal.vfloat 2) (PyVal.vint 3) = .error .typeError) ∧
    (validDim (PyVal.vstr "a") = false ∧
      initPlate (PyVal.vint 0) (PyVal.vstr "a") = .ok (PyVal.vint 0, PyVal.vstr "a")) :=
  ⟨⟨by decide, rfl, rfl⟩, ⟨rfl, rfl⟩⟩

/-- Claim C5 (amended): construction is accepted exactly when both
arguments are integers, or both are integer-valued floats (the only branch
that coerces), or `rows` is an integer `≤ 0` (then the empty outer
`range(rows)` short-circuits grid construction, so any `cols` value that
passed the `isinstance` checks survives). Every other pair raises a type
error: a non-int `rows` paired with an integer `cols` is rejected by
`range(rows)`, and a positive integer `rows` paired with a non-int `cols`
is rejected by `range(cols)`. -/
theorem initPlate_ok_iff (rows cols : PyVal) :
    (∃ rc, initPlate rows cols = .ok rc) ↔
      ((rows.isInt = true ∧ cols.isInt = true) ∨
       (rows.isFloat = true ∧ cols.isFloat = true ∧
        validDim rows = true ∧ validDim cols = true) ∨
       (∃ ri : Int, rows = .vint ri ∧ ri ≤ 0)) := by
  cases rows with
  | vint r =>
    cases cols with
    | vint c =>
      simp only [initPlate, PyVal.isInt, PyVal.isFloat, validDim]
      by_cases h : r ≤ 0
      · simp [h]
      · simp [h]
    | vfloat q =>
      simp only [initPlate, PyVal.isInt, PyVal.isFloat, validDim]
      by_cases h : r ≤ 0
      · rw [if_neg (by simp)]
        simp [h]
      · rw [if_neg (by simp)]
        simp only [if_neg h]
        constructor
        · rintro ⟨rc, hrc⟩
          cases hrc
        · rintro (⟨_, h1⟩ | ⟨h1, _⟩ | ⟨ri, hri, hle⟩)
          · cases h1
          · cases h1
          · cases hri
            exact absurd hle h
    | vstr s =>
      simp only [initPlate, PyVal.isInt, PyVal.isFloat, validDim]
      by_cases h : r ≤ 0
      · rw [if_neg (by simp)]
        simp [h]
      · rw [if_neg (by simp)]
        simp only [if_neg h]
        constructor
        · rintro ⟨rc, hrc⟩
          cases hrc
        · rintro (⟨_, h1⟩ | ⟨h1, _⟩ | ⟨ri, hri, hle⟩)
          · cases h1
          · cases h1
          · cases hri
            exact absurd hle h
  | vfloat q =>
    cases cols with
    | vint c => simp [initPlate, PyVal.isInt, PyVal.isFloat, validDim]
    | vfloat q' =>
      simp only [initPlate, PyVal.isInt, PyVal.isFloat, validDim]
      by_cases h : q.den = 1 ∧ q'.den = 1
      · rw [if_pos h]
        simp [h.1, h.2]
      · rw [if_neg h]
        simp only [decide_eq_true_eq]
        constructor
        · rintro ⟨rc, hrc⟩
          cases hrc
        · rintro (⟨h1, _⟩ | ⟨_, _, h1, h2⟩ | ⟨ri, hri, _⟩)
          · cases h1
          · exact absurd ⟨h1, h2⟩ h
          · cases hri
    | vstr s => simp [initPlate, PyVal.isInt, PyVal.isFloat, validDim]
  | vstr s =>
    cases cols with
    | vint c => simp [initPlate, PyVal.isInt, PyVal.isFloat, validDim]
    | vfloat q => simp [initPlate, PyVal.isInt, PyVal.isFloat, validDim]
    | vstr s' => simp [initPlate, PyVal.isInt, PyVal.isFloat, validDim]

/-- Witness for the amended C5 theorem: a pair of integer-valued floats is
accepted. -/
theorem initPlate_ok_iff_witness :
    ∃ rc, initPlate (PyVal.vfloat 1) (PyVal.vfloat 2) = .ok rc :=
  (initPlate_ok_iff (PyVal.vfloat 1) (PyVal.vfloat 2)).mpr
    (Or.inr (Or.inl ⟨rfl, rfl, by decide, by decide⟩))

/-! Claim C6: `fill_by_other` dimension guard. -/

/-- Claim C6 (code bug): the guard
`if self.num_rows != other.num_rows and self.num_cols != other.num_rows`
uses `and` with a typo'd `other.num_rows`, so filling a 2×5 grid from a
2×3 grid (equal row counts, different column counts) raises no error at
all and silently copies into the top-left corner, contradicting "raises a
dimension-mismatch error whenever dimensions are not identical". -/
theorem fill_by_other_dim_mismatch_no_error :
    (PlateSet.mk0 2 5).num_cols ≠ (PlateSet.mk0 2 3).num_cols ∧
    fill_by_other (PlateSet.mk0 2 5) (PlateSet.mk0 2 3) = .ok (PlateSet.mk0 2 5) :=
  ⟨by decide, rfl⟩

/-! Claim C7: bounds checks of the single-cell operations. -/

/-- Claim C7: for every grid and every integer coordinate, `value_of`,
`insert` and `remove` all raise the range error exactly when the coordinate
is out of range (`row < 0`, `row ≥ num_rows`, `col < 0` or
`col ≥ num_cols`), and all succeed exactly on in-range coordinates (an
error result carries no modified grid, so a failed mutation leaves every
cell unchanged). -/
theorem bounds_check_exact (p : PlateSet) (v : String) (r c : Int) :
    (p.value_of r c = .error .valueError ↔
      (r < 0 ∨ (p.num_rows : Int) ≤ r ∨ c < 0 ∨ (p.num_cols : Int) ≤ c)) ∧
    (p.insert v r c = .error .valueError ↔
      (r < 0 ∨ (p.num_rows : Int) ≤ r ∨ c < 0 ∨ (p.num_cols : Int) ≤ c)) ∧
    (p.remove r c = .error .valueError ↔
      (r < 0 ∨ (p.num_rows : Int) ≤ r ∨ c < 0 ∨ (p.num_cols : Int) ≤ c)) ∧
    ((∃ s, p.value_of r c = .ok s) ↔
      ¬ (r < 0 ∨ (p.num_rows : Int) ≤ r ∨ c < 0 ∨ (p.num_cols : Int) ≤ c)) ∧
    ((∃ q, p.insert v r c = .ok q) ↔
      ¬ (r < 0 ∨ (p.num_rows : Int) ≤ r ∨ c < 0 ∨ (p.num_cols : Int) ≤ c)) ∧
    ((∃ q, p.remove r c = .ok q) ↔
      ¬ (r < 0 ∨ (p.num_rows : Int) ≤ r ∨ c < 0 ∨ (p.num_cols : Int) ≤ c)) := by
  have hcond : p.inRange r c ↔
      ¬ (r < 0 ∨ (p.num_rows : Int) ≤ r ∨ c < 0 ∨ (p.num_cols : Int) ≤ c) := by
    unfold PlateSet.inRange
    omega
  by_cases h : p.inRange r c
  · have hneg := hcond.mp h
    simp [PlateSet.value_of, PlateSet.insert, PlateSet.remove, h, hneg]
  · have hpos : r < 0 ∨ (p.num_rows : Int) ≤ r ∨ c < 0 ∨ (p.num_cols : Int) ≤ c :=
      not_not.mp (fun hn => h (hcond.mpr hn))
    simp [PlateSet.value_of, PlateSet.insert, PlateSet.remove, h, hpos]

/-- Witness for C7 at a concrete out-of-range coordinate. -/
theorem bounds_check_exact_witness :
    (PlateSet.mk0 2 3).value_of (-1) 0 = .error .valueError :=
  ((bounds_check_exact (PlateSet.mk0 2 3) "v" (-1) 0).1).mpr (Or.inl (by decide))

/-! Claim C8: plate-number/well-label translation. -/

/-- Claim C8 counterexample: the coordinate `(16, 0)` is outside the 16×24
shape (`row ≥ 16`), so the claim requires a range error; but the guard
tests `row > 16`, so the code instead fails with a `KeyError` from the
tile-offset dictionary lookup. -/
theorem indices_to_well_boundary_keyerror :
    indices_to_well 16 0 1 = .error .keyError ∧ PyErr.keyError ≠ PyErr.valueError :=
  ⟨rfl, by decide⟩

/-- Claim C8 (amended): the translation raises the range error exactly when
`row > 16` or `col > 24`; on the boundary (`row = 16` or `col = 24`, within
the other's lax bound) it raises a key-lookup error instead; and for every
coordinate strictly inside the 16×24 shape it returns the plate/well string
with plate number `start + 2*(row/8) + col/12` (tiles ordered top-left,
top-right, bottom-left, bottom-right) and well label
`"ABCDEFGH"[row % 8]` followed by `col % 12 + 1`. -/
theorem indices_to_well_exact (row col : Nat) (start : Int) :
    (indices_to_well row col start = .error .valueError ↔ (16 < row ∨ 24 < col)) ∧
    (indices_to_well row col start = .error .keyError ↔
      (row ≤ 16 ∧ col ≤ 24 ∧ (16 ≤ row ∨ 24 ≤ col))) ∧
    (row < 16 → col < 24 → indices_to_well row col start =
      .ok ("Plate " ++ toString (start + (2 * (row / 8) + col / 12 : Nat)) ++ " " ++
        (String.mk [['A', 'B', 'C', 'D', 'E', 'F', 'G', 'H'].getD (row % 8) 'A'] ++
          toString (col % 12 + 1)))) := by
  unfold indices_to_well
  by_cases hout : 16 < row ∨ 24 < col
  · rw [if_pos hout]
    refine ⟨by simp [hout], ?_, ?_⟩
    · simp only [Except.error.injEq]
      constructor
      · intro h
        cases h
      · rintro ⟨h1, h2, h3⟩
        exact absurd hout (by omega)
    · intro h1 h2
      exact absurd hout (by omega)
  · rw [if_neg hout]
    by_cases h16 : 16 ≤ row ∨ 24 ≤ col
    · have hnone : offset_to_num (row / 8, col / 12) = none := by
        unfold offset_to_num
        simp only [Prod.mk.injEq]
        split_ifs with h1 h2 h3 h4
        · omega
        · omega
        · omega
        · omega
        · rfl
      rw [hnone]
      refine ⟨?_, ?_, ?_⟩
      · simp only [Except.error.injEq]
        constructor
        · intro h
          cases h
        · intro h
          exact absurd h hout
      · simp only [Except.error.injEq, true_iff]
        omega
      · intro h1 h2
        exact absurd h16 (by omega)
    · have hsome : offset_to_num (row / 8, col / 12) =
          some (2 * (row / 8) + col / 12) := by
        unfold offset_to_num
        have h8 : row / 8 = 0 ∨ row / 8 = 1 := by omega
        have h12 : col / 12 = 0 ∨ col / 12 = 1 := by omega
        rcases h8 with h8 | h8 <;> rcases h12 with h12 | h12 <;> rw [h8, h12] <;> decide
      rw [hsome]
      refine ⟨?_, ?_, ?_⟩
      · constructor
        · intro h
          cases h
        · intro h
          exact absurd h hout
      · constructor
        · intro h
          cases h
        · intro h
          exact absurd (by omega : (16 : Nat) ≤ row ∨ 24 ≤ col) h16
      · intro h1 h2
        rfl

/-- Witness for the amended C8 theorem: the spec's literal scenario
`(0, 12, start=3)` yields "Plate 4 A1". -/
theorem indices_to_well_exact_witness :
    indices_to_well 0 12 3 = .ok "Plate 4 A1" :=
  ((indices_to_well_exact 0 12 3).2.2 (by omega) (by omega)).trans
    (congrArg Except.ok (by decide))

/-! Claims C9 and C10: `fill_randomly`. -/

/-- Position of the first occurrence of a pair in the loop order. -/
def posOf : List (Nat × Nat) → Nat × Nat → Nat
  | [], _ => 0
  | p :: rest, q => if p = q then 0 else posOf rest q + 1

/-- Closed form for the fill loop: it preserves shape and writes into each
visited cell the element selected by the generator state at the step that
visits it. -/
theorem fillLoop_spec (pairs : List (Nat × Nat)) (p : PlateSet) (g : Rng) (hWF : p.WF)
    (hb : ∀ rc ∈ pairs, rc.1 < p.num_rows ∧ rc.2 < p.num_cols) (hnd : pairs.Nodup) :
    (fillLoop p pairs g).1.num_rows = p.num_rows ∧
    (fillLoop p pairs g).1.num_cols = p.num_cols ∧
    (fillLoop p pairs g).1.WF ∧
    ∀ r c, getCell (fillLoop p pairs g).1 r c =
      if (r, c) ∈ pairs then
        elements.getD ((g.state + posOf pairs (r, c)) % elements.length) nullStr
      else getCell p r c := by
  induction pairs generalizing p g with
  | nil =>
    refine ⟨rfl, rfl, hWF, ?_⟩
    intro r c
    simp [fillLoop]
  | cons ab rest ih =>
    obtain ⟨a, b⟩ := ab
    have hab := hb (a, b) (List.mem_cons_self _ _)
    have hnotin : (a, b) ∉ rest := (List.nodup_cons.mp hnd).1
    have hstep : fillLoop p ((a, b) :: rest) g =
        fillLoop (setCell p a b (elements.getD (g.state % elements.length) nullStr))
          rest ⟨g.state + 1⟩ := rfl
    obtain ⟨ihr, ihc, ihwf, ihcell⟩ :=
      ih (setCell p a b (elements.getD (g.state % elements.length) nullStr)) ⟨g.state + 1⟩
        (WF_setCell hWF _ _ _)
        (fun rc hrc => by simpa using hb rc (List.mem_cons_of_mem _ hrc))
        (List.nodup_cons.mp hnd).2
    rw [hstep]
    refine ⟨by simpa using ihr, by simpa using ihc, ihwf, ?_⟩
    intro r c
    rw [ihcell r c]
    by_cases hin : (r, c) ∈ rest
    · have hne : (a, b) ≠ (r, c) := fun he => hnotin (he ▸ hin)
      rw [if_pos hin, if_pos (List.mem_cons_of_mem _ hin)]
      simp only [posOf, if_neg hne]
      have harith : g.state + (posOf rest (r, c) + 1) = g.state + 1 + posOf rest (r, c) := by
        omega
      rw [harith]
    · rw [if_neg hin]
      by_cases heq : (r, c) = (a, b)
      · obtain ⟨rfl, rfl⟩ := Prod.mk.injEq .. ▸ heq
        rw [if_pos (List.mem_cons_self _ _)]
        simp only [posOf, if_pos rfl, Nat.add_zero]
        exact getCell_setCell_self hWF hab.1 hab.2 _
      · rw [if_neg (by
          intro hmem
          rcases List.mem_cons.mp hmem with h1 | h1
          · exact heq h1
          · exact hin h1)]
        exact getCell_setCell_ne (by
          rintro ⟨h1, h2⟩
          exact heq (by rw [h1, h2])) _

/-- With a truthy seed, `fill_randomly` first reseeds the generator. -/
theorem fill_randomly_seeded (p : PlateSet) (g : Rng) {s : Int} (hs : s ≠ 0) :
    fill_randomly p (some s) g =
      fillLoop p (gridPairs p.num_rows p.num_cols) (rngSeed s) := by
  unfold fill_randomly
  simp [truthy, hs]

/-- Claim C9 (amended): for every TRUTHY seed value (any nonzero integer),
two runs of `fill_randomly` with the same seed — starting from any prior
grid contents and any prior generator states — produce identical grid
contents. (A falsy seed such as 0 skips the `random.seed` call.) -/
theorem fill_randomly_seeded_deterministic (s : Int) (hs : s ≠ 0)
    (p1 p2 : PlateSet) (g1 g2 : Rng) (h1 : p1.WF) (h2 : p2.WF)
    (hr : p1.num_rows = p2.num_rows) (hc : p1.num_cols = p2.num_cols) :
    (fill_randomly p1 (some s) g1).1 = (fill_randomly p2 (some s) g2).1 := by
  rw [fill_randomly_seeded p1 g1 hs, fill_randomly_seeded p2 g2 hs]
  have hbounds1 : ∀ rc ∈ gridPairs p1.num_rows p1.num_cols,
      rc.1 < p1.num_rows ∧ rc.2 < p1.num_cols := fun rc hrc => mem_gridPairs.mp hrc
  have hbounds2 : ∀ rc ∈ gridPairs p2.num_rows p2.num_cols,
      rc.1 < p2.num_rows ∧ rc.2 < p2.num_cols := fun rc hrc => mem_gridPairs.mp hrc
  obtain ⟨hr1, hc1, hwf1, hcell1⟩ :=
    fillLoop_spec (gridPairs p1.num_rows p1.num_cols) p1 (rngSeed s) h1 hbounds1
      (nodup_gridPairs _ _)
  obtain ⟨hr2, hc2, hwf2, hcell2⟩ :=
    fillLoop_spec (gridPairs p2.num_rows p2.num_cols) p2 (rngSeed s) h2 hbounds2
      (nodup_gridPairs _ _)
  refine plateSet_ext hwf1 hwf2 (by rw [hr1, hr2, hr]) (by rw [hc1, hc2, hc]) ?_
  intro r hrr c hcc
  rw [hr1] at hrr
  rw [hc1] at hcc
  rw [hcell1 r c, hcell2 r c, if_pos (mem_gridPairs.mpr ⟨hrr, hcc⟩),
    if_pos (mem_gridPairs.mpr ⟨hr ▸ hrr, hc ▸ hcc⟩), hr, hc]

/-- Witness for the amended C9 theorem: the same nonzero seed fills a fresh
1×1 grid and a modified 1×1 grid identically from different prior states. -/
theorem fill_randomly_seeded_deterministic_witness :
    (fill_randomly (PlateSet.mk0 1 1) (some 4) ⟨0⟩).1 =
    (fill_randomly (setCell (PlateSet.mk0 1 1) 0 0 "QQQQQ") (some 4) ⟨7⟩).1 :=
  fill_randomly_seeded_deterministic 4 (by decide) _ _ ⟨0⟩ ⟨7⟩
    (by decide) (by decide) rfl rfl

/-- Length of the combination list: `C(26, 5) = 65780` tuples. -/
theorem combinations_length (k : Nat) (l : List Char) :
    (combinations k l).length = Nat.choose l.length k := by
  induction l generalizing k with
  | nil =>
    cases k with
    | zero => simp [combinations]
    | succ m => simp [combinations]
  | cons c cs ih =>
    cases k with
    | zero => simp [combinations]
    | succ m =>
      simp only [combinations, List.length_append, List.length_map, ih, List.length_cons]
      rw [Nat.choose_succ_succ]

theorem elements_length : elements.length = 65780 := by
  rw [elements, List.length_map, combinations_length]
  decide

theorem fill_unseeded_step1 (g : Rng) :
    (fill_randomly (PlateSet.mk0 1 1) (some 0) g).1 =
      (fillLoop (PlateSet.mk0 1 1) (gridPairs 1 1) g).1 := rfl

theorem gridPairs_one_one : gridPairs 1 1 = [(0, 0)] := rfl

/-- Claim C9 counterexample: `0` is a supplied seed value, but it is falsy,
so `random.seed` is never called and the outcome depends on the prior
generator state: two runs from different prior states disagree on the
single cell. -/
theorem fill_randomly_zero_seed_not_deterministic :
    getCell (fill_randomly (PlateSet.mk0 1 1) (some 0) ⟨0⟩).1 0 0 ≠
    getCell (fill_randomly (PlateSet.mk0 1 1) (some 0) ⟨1⟩).1 0 0 := by
  obtain ⟨_, _, _, hcell0⟩ :=
    fillLoop_spec (gridPairs 1 1) (PlateSet.mk0 1 1) ⟨0⟩ (WF_mk0 1 1)
      (fun rc hrc => mem_gridPairs.mp hrc) (nodup_gridPairs 1 1)
  obtain ⟨_, _, _, hcell1⟩ :=
    fillLoop_spec (gridPairs 1 1) (PlateSet.mk0 1 1) ⟨1⟩ (WF_mk0 1 1)
      (fun rc hrc => mem_gridPairs.mp hrc) (nodup_gridPairs 1 1)
  have hmem : ((0 : Nat), (0 : Nat)) ∈ gridPairs 1 1 :=
    mem_gridPairs.mpr ⟨by decide, by decide⟩
  rw [fill_unseeded_step1, fill_unseeded_step1, hcell0 0 0, hcell1 0 0,
    if_pos hmem, if_pos hmem, gridPairs_one_one]
  have hp : posOf [((0 : Nat), (0 : Nat))] (0, 0) = 0 := rfl
  have hs0 : (⟨0⟩ : Rng).state = 0 := rfl
  have hs1 : (⟨1⟩ : Rng).state = 1 := rfl
  rw [hp, hs0, hs1, Nat.add_zero, Nat.add_zero, elements_length]
  decide

/-- Every tuple produced by `combinations` has the requested length and
draws its entries from the source alphabet. -/
theorem combinations_mem {k : Nat} {l t : List Char} (h : t ∈ combinations k l) :
    t.length = k ∧ ∀ ch ∈ t, ch ∈ l := by
  induction l generalizing k t with
  | nil =>
    cases k with
    | zero =>
      simp only [combinations, List.mem_singleton] at h
      subst h
      exact ⟨rfl, by simp⟩
    | succ m => simp [combinations] at h
  | cons c cs ih =>
    cases k with
    | zero =>
      simp only [combinations, List.mem_singleton] at h
      subst h
      exact ⟨rfl, by simp⟩
    | succ m =>
      rw [combinations] at h
      rcases List.mem_append.mp h with h1 | h1
      · obtain ⟨t', ht', rfl⟩ := List.mem_map.mp h1
        obtain ⟨hlen, hsub⟩ := ih ht'
        refine ⟨by simp [hlen], ?_⟩
        intro ch hch
        rcases List.mem_cons.mp hch with rfl | hch
        · exact List.mem_cons_self _ _
        · exact List.mem_cons_of_mem _ (hsub ch hch)
      · obtain ⟨hlen, hsub⟩ := ih h1
        exact ⟨hlen, fun ch hch => List.mem_cons_of_mem _ (hsub ch hch)⟩

theorem mem_elements_getD (n : Nat) :
    elements.getD (n % elements.length) nullStr ∈ elements := by
  have hpos : 0 < elements.length := by rw [elements_length]; decide
  have hlt : n % elements.length < elements.length := Nat.mod_lt _ hpos
  rw [List.getD_eq_getElem?_getD, List.getElem?_eq_getElem hlt, Option.getD_some]
  exact List.getElem_mem hlt

theorem elements_props {x : String} (h : x ∈ elements) :
    x.length = 5 ∧ (∀ ch ∈ x.data, ch ∈ letters) ∧ x ≠ nullStr := by
  obtain ⟨t, ht, rfl⟩ := List.mem_map.mp h
  obtain ⟨hlen, hsub⟩ := combinations_mem ht
  refine ⟨by simpa [String.length] using hlen, by simpa [String.data] using hsub, ?_⟩
  intro he
  have ht5 : 0 < t.length := by rw [hlen]; decide
  have hx : 'x' ∈ t := by
    have : t = List.replicate FILL 'x' := by
      have := congrArg String.data he
      simpa [nullStr] using this
    rw [this]
    simp [FILL]
  have := hsub 'x' hx
  simp [letters] at this

/-- Claim C10: after any call to `fill_randomly` — seeded or not — every
cell of a well-formed grid holds a 5-character token of uppercase letters,
which is never the lowercase sentinel; consequently `count_defaults`
returns 0. -/
theorem fill_randomly_fills_all (p : PlateSet) (hWF : p.WF) (seed : Option Int) (g : Rng) :
    (∀ r < p.num_rows, ∀ c < p.num_cols,
      (getCell (fill_randomly p seed g).1 r c).length = 5 ∧
      (∀ ch ∈ (getCell (fill_randomly p seed g).1 r c).data, ch ∈ letters) ∧
      getCell (fill_randomly p seed g).1 r c ≠ nullStr) ∧
    (fill_randomly p seed g).1.count_defaults = 0 := by
  obtain ⟨g0, hg0⟩ : ∃ g0, fill_randomly p seed g =
      fillLoop p (gridPairs p.num_rows p.num_cols) g0 := by
    unfold fill_randomly
    cases seed with
    | none => exact ⟨g, rfl⟩
    | some s => exact ⟨if truthy s then rngSeed s else g, rfl⟩
  rw [hg0]
  obtain ⟨hr, hc, hwf, hcell⟩ :=
    fillLoop_spec (gridPairs p.num_rows p.num_cols) p g0 hWF
      (fun rc hrc => mem_gridPairs.mp hrc) (nodup_gridPairs _ _)
  have hval : ∀ r < p.num_rows, ∀ c < p.num_cols,
      getCell (fillLoop p (gridPairs p.num_rows p.num_cols) g0).1 r c ∈ elements := by
    intro r hrr c hcc
    rw [hcell r c, if_pos (mem_gridPairs.mpr ⟨hrr, hcc⟩)]
    exact mem_elements_getD _
  constructor
  · intro r hrr c hcc
    exact elements_props (hval r hrr c hcc)
  · rw [PlateSet.count_defaults, hr, hc, List.length_eq_zero, List.filter_eq_nil_iff]
    intro rc hrc
    obtain ⟨hrr, hcc⟩ := mem_gridPairs.mp hrc
    simp only [decide_eq_true_eq]
    exact (elements_props (hval rc.1 hrr rc.2 hcc)).2.2

/-- Witness for C10 at a concrete grid, seed and generator state. -/
theorem fill_randomly_fills_all_witness :
    (fill_randomly (PlateSet.mk0 1 1) none ⟨0⟩).1.count_defaults = 0 :=
  (fill_randomly_fills_all (PlateSet.mk0 1 1) (by decide) none ⟨0⟩).2

end ResolveSets
